import Mathlib

/-
  Verification of the AIP OpenAPI reviewer core
  (getlarge/claude-aip-plugins).

  Shallow embedding of:
  - the review engine (plugins/aip-api-design/scripts/src/reviewer.js),
  - the spec loader parse function (mcp-server tools spec-loader),
  - the worker message handler (mcp-server worker),
  - the fixer surface (modelled from the design document, see below).

  JavaScript arrays become Lean lists, objects become structures,
  undefined-able fields become Option, and functions that may throw
  return Except String.
-/

namespace AipReview

/-- Severity levels for findings (types.ts: Severity). -/
inductive Severity where
  | error
  | warning
  | suggestion
deriving DecidableEq, Repr

/-- Categories of AIP rules (types.ts: RuleCategory).
    The hyphenated source literal standard-methods becomes standardMethods. -/
inductive RuleCategory where
  | naming
  | standardMethods
  | errors
  | pagination
  | filtering
  | lro
  | idempotency
  | versioning
  | security
deriving DecidableEq, Repr

/-- A single finding from the review process (types.ts: Finding).
    The opaque context field (Record of unknown values, never read by the
    engine) is not modelled. -/
structure Finding where
  ruleId : String
  severity : Severity
  category : RuleCategory
  path : String
  message : String
  aip : Option String := none
  suggestion : Option String := none
  jsonPath : Option String := none
deriving DecidableEq, Repr

/-- Argument of createFinding (types.ts RuleContext): path and message are
    required, every other Finding field is an optional override. -/
structure FindingPartial where
  path : String
  message : String
  ruleId : Option String := none
  severity : Option Severity := none
  category : Option RuleCategory := none
  aip : Option String := none
  suggestion : Option String := none
  jsonPath : Option String := none
deriving DecidableEq, Repr

/-- The info block of an OpenAPI document (types.ts: OpenAPISpec.info). -/
structure SpecInfo where
  title : Option String := none
  version : Option String := none
  description : Option String := none
deriving DecidableEq, Repr

/-- An OpenAPI document. The review engine itself only reads info; every
    other part of the document is only inspected by rule check functions,
    which are arbitrary functions here, so the rest of the document is an
    opaque payload of type alpha. -/
structure OpenAPISpec (α : Type) where
  info : Option SpecInfo := none
  payload : α

/-- Context passed to rule checkers (types.ts: RuleContext). -/
structure RuleContext (α : Type) where
  spec : OpenAPISpec α
  createFinding : FindingPartial → Finding

/-- A single review rule (types.ts: Rule). A check that throws is an
    Except.error carrying the thrown message. -/
structure Rule (α : Type) where
  id : String
  name : String
  category : RuleCategory
  severity : Severity
  description : String
  aip : Option String := none
  check : OpenAPISpec α → RuleContext α → Except String (List Finding)

/-- Reviewer configuration (types.ts: ReviewerConfig); absent fields are
    none. -/
structure ReviewerConfig (α : Type) where
  strict : Option Bool := none
  categories : Option (List RuleCategory) := none
  skipRules : Option (List String) := none
  customRules : Option (List (Rule α)) := none

/-- Modelled from the spec: rules.js (the built-in catalog module with
    defaultRules and getRulesByCategory) is not under src; design document
    section 4.1 states getByCategory returns the union of the rules in the
    given categories, in stable catalog order. The catalog itself is a
    parameter (defaultRules) of every definition below. -/
def getRulesByCategory (catalog : List (Rule α)) (categories : List RuleCategory) :
    List (Rule α) :=
  catalog.filter (fun r => categories.contains r.category)

/-- reviewer.js OpenAPIReviewer.buildRuleSet: copy the catalog; replace by
    the category union when categories is a non-empty list; drop skipped
    ids when skipRules is a non-empty list; append custom rules when the
    customRules field is present. -/
def buildRuleSet (defaultRules : List (Rule α)) (config : ReviewerConfig α) :
    List (Rule α) :=
  let rules0 := defaultRules
  let rules1 :=
    match config.categories with
    | some cats =>
        if 0 < cats.length then getRulesByCategory defaultRules cats else rules0
    | none => rules0
  let rules2 :=
    match config.skipRules with
    | some skips =>
        if 0 < skips.length then
          rules1.filter (fun r => !(skips.contains r.id))
        else rules1
    | none => rules1
  match config.customRules with
  | some custom => rules2 ++ custom
  | none => rules2

/-- The object literal built by createFinding in
    reviewer.js createRuleContext: rule-derived defaults, overridden by the
    fields present in the argument (JS object spread). -/
def mergeFindingDefaults (rule : Rule α) (p : FindingPartial) : Finding :=
  { ruleId := p.ruleId.getD rule.id
    severity := p.severity.getD rule.severity
    category := p.category.getD rule.category
    path := p.path
    message := p.message
    aip := match p.aip with | some a => some a | none => rule.aip
    suggestion := p.suggestion
    jsonPath := p.jsonPath }

/-- reviewer.js OpenAPIReviewer.createRuleContext. -/
def createRuleContext (rule : Rule α) (spec : OpenAPISpec α) : RuleContext α :=
  { spec := spec
    createFinding := fun p => mergeFindingDefaults rule p }

/-- One iteration of the rule loop in reviewer.js review: the findings the
    rule contributes and the console.error lines it produces. A throwing
    rule contributes no findings and one log line. -/
def ruleOutcome (rule : Rule α) (spec : OpenAPISpec α) :
    List Finding × List String :=
  match rule.check spec (createRuleContext rule spec) with
  | Except.ok fs => (fs, [])
  | Except.error msg => ([], ["Rule " ++ rule.id ++ " threw error: " ++ msg])

/-- The rule loop of reviewer.js review: findings concatenated in rule
    order, together with the error log. -/
def runRules (rules : List (Rule α)) (spec : OpenAPISpec α) :
    List Finding × List String :=
  (rules.foldr (fun r acc => (ruleOutcome r spec).1 ++ acc) [],
   rules.foldr (fun r acc => (ruleOutcome r spec).2 ++ acc) [])

/-- Strict-mode promotion of one finding (reviewer.js review, strict loop):
    warning becomes error, everything else is untouched. -/
def promoteFinding (f : Finding) : Finding :=
  if f.severity = Severity.warning then { f with severity := Severity.error } else f

/-- Strict-mode promotion over the collected findings. -/
def promoteStrict (findings : List Finding) : List Finding :=
  findings.map promoteFinding

/-- The byCategory record of the summary (reviewer.js buildSummary), one
    counter per rule category. -/
structure ByCategory where
  naming : Nat := 0
  standardMethods : Nat := 0
  errors : Nat := 0
  pagination : Nat := 0
  filtering : Nat := 0
  lro : Nat := 0
  idempotency : Nat := 0
  versioning : Nat := 0
  security : Nat := 0
deriving DecidableEq, Repr

/-- Increment the counter of one category (the line
    byCategory of finding.category incremented in buildSummary). -/
def ByCategory.inc (b : ByCategory) : RuleCategory → ByCategory
  | RuleCategory.naming => { b with naming := b.naming + 1 }
  | RuleCategory.standardMethods => { b with standardMethods := b.standardMethods + 1 }
  | RuleCategory.errors => { b with errors := b.errors + 1 }
  | RuleCategory.pagination => { b with pagination := b.pagination + 1 }
  | RuleCategory.filtering => { b with filtering := b.filtering + 1 }
  | RuleCategory.lro => { b with lro := b.lro + 1 }
  | RuleCategory.idempotency => { b with idempotency := b.idempotency + 1 }
  | RuleCategory.versioning => { b with versioning := b.versioning + 1 }
  | RuleCategory.security => { b with security := b.security + 1 }

/-- Sum of all nine category counters. -/
def ByCategory.total (b : ByCategory) : Nat :=
  b.naming + b.standardMethods + b.errors + b.pagination + b.filtering +
    b.lro + b.idempotency + b.versioning + b.security

/-- Summary block of a review result (types.ts: ReviewResult.summary). -/
structure ReviewSummary where
  errors : Nat
  warnings : Nat
  suggestions : Nat
  byCategory : ByCategory
deriving DecidableEq, Repr

/-- One iteration of the loop in reviewer.js buildSummary. -/
def summaryStep (s : ReviewSummary) (f : Finding) : ReviewSummary :=
  let s1 := { s with byCategory := s.byCategory.inc f.category }
  match f.severity with
  | Severity.error => { s1 with errors := s1.errors + 1 }
  | Severity.warning => { s1 with warnings := s1.warnings + 1 }
  | Severity.suggestion => { s1 with suggestions := s1.suggestions + 1 }

/-- The all-zero summary the buildSummary loop starts from. -/
def emptySummary : ReviewSummary :=
  { errors := 0, warnings := 0, suggestions := 0, byCategory := {} }

/-- reviewer.js OpenAPIReviewer.buildSummary. -/
def buildSummary (findings : List Finding) : ReviewSummary :=
  findings.foldl summaryStep emptySummary

/-- Metadata block of a review result. -/
structure ReviewMetadata where
  reviewedAt : String
  reviewerVersion : String
  rulesApplied : List String
deriving DecidableEq, Repr

/-- types.ts: ReviewResult. -/
structure ReviewResult where
  specPath : String
  specTitle : Option String := none
  specVersion : Option String := none
  findings : List Finding
  summary : ReviewSummary
  metadata : ReviewMetadata
deriving DecidableEq, Repr

/-- reviewer.js REVIEWER_VERSION. -/
def REVIEWER_VERSION : String := "1.0.0"

/-- Truthiness of the strict flag (JS: if config.strict). -/
def ReviewerConfig.strictOn (config : ReviewerConfig α) : Bool :=
  config.strict.getD false

/-- reviewer.js OpenAPIReviewer.review. The wall-clock string produced by
    new Date toISOString is the explicit argument now; everything else is a
    function of the document, the configuration and the catalog. -/
def review (defaultRules : List (Rule α)) (config : ReviewerConfig α)
    (spec : OpenAPISpec α) (specPath : String) (now : String) : ReviewResult :=
  let rules := buildRuleSet defaultRules config
  let ran := runRules rules spec
  let allFindings := if config.strictOn then promoteStrict ran.1 else ran.1
  { specPath := specPath
    specTitle := spec.info.bind (fun i => i.title)
    specVersion := spec.info.bind (fun i => i.version)
    findings := allFindings
    summary := buildSummary allFindings
    metadata :=
      { reviewedAt := now
        reviewerVersion := REVIEWER_VERSION
        rulesApplied := rules.map (fun r => r.id) } }

/-- The console.error log lines produced during one review call. -/
def reviewLog (defaultRules : List (Rule α)) (config : ReviewerConfig α)
    (spec : OpenAPISpec α) : List String :=
  (runRules (buildRuleSet defaultRules config) spec).2

/-- The rule-selection pipeline exactly as the claim states it: full
    catalog; replaced by the category union when categories is non-empty;
    minus the skipped ids; plus all custom rules, which the two filters
    never touch. Stated from the claim wording, to be compared with
    buildRuleSet, the embedding of the source. -/
def ruleSelectionSpec (defaultRules : List (Rule α)) (config : ReviewerConfig α) :
    List (Rule α) :=
  let cats := config.categories.getD []
  let skips := config.skipRules.getD []
  let base :=
    if cats.isEmpty then defaultRules
    else defaultRules.filter (fun r => cats.contains r.category)
  (base.filter (fun r => !(skips.contains r.id))) ++ config.customRules.getD []

/-- Claim C1: the active rule set is computed by starting from the full
    built-in catalog, replacing it with the union of the configured
    categories when that list is non-empty, then removing every rule whose
    id appears in skipRules, then appending all custom rules, which the
    skip and category filters never remove. -/
theorem buildRuleSet_eq_ruleSelectionSpec (defaultRules : List (Rule α))
    (config : ReviewerConfig α) :
    buildRuleSet defaultRules config = ruleSelectionSpec defaultRules config := by
  obtain ⟨strict, cats, skips, custom⟩ := config
  cases cats with
  | none =>
      cases skips with
      | none =>
          cases custom <;>
            simp [buildRuleSet, ruleSelectionSpec]
      | some sk =>
          cases sk with
          | nil =>
              cases custom <;>
                simp [buildRuleSet, ruleSelectionSpec]
          | cons s sk =>
              cases custom <;>
                simp [buildRuleSet, ruleSelectionSpec]
  | some cs =>
      cases cs with
      | nil =>
          cases skips with
          | none =>
              cases custom <;>
                simp [buildRuleSet, ruleSelectionSpec]
          | some sk =>
              cases sk with
              | nil =>
                  cases custom <;>
                    simp [buildRuleSet, ruleSelectionSpec]
              | cons s sk =>
                  cases custom <;>
                    simp [buildRuleSet, ruleSelectionSpec]
      | cons c cs =>
          cases skips with
          | none =>
              cases custom <;>
                simp [buildRuleSet, ruleSelectionSpec, getRulesByCategory]
          | some sk =>
              cases sk with
              | nil =>
                  cases custom <;>
                    simp [buildRuleSet, ruleSelectionSpec, getRulesByCategory]
              | cons s sk =>
                  cases custom <;>
                    simp [buildRuleSet, ruleSelectionSpec, getRulesByCategory]

/-- Claim C2: strict-mode promotion rewrites every warning finding to an
    error, never changes a suggestion finding, is idempotent, and review
    computes its summary on the post-promotion findings list. -/
theorem strict_promotion_properties {α : Type} :
    (∀ fs : List Finding, promoteStrict (promoteStrict fs) = promoteStrict fs)
    ∧ (∀ f : Finding, f.severity = Severity.suggestion → promoteFinding f = f)
    ∧ (∀ f : Finding, f.severity = Severity.warning →
        (promoteFinding f).severity = Severity.error)
    ∧ (∀ (defaultRules : List (Rule α)) (config : ReviewerConfig α)
        (spec : OpenAPISpec α) (path now : String),
        config.strictOn = true →
        (review defaultRules config spec path now).findings =
          promoteStrict (runRules (buildRuleSet defaultRules config) spec).1
        ∧ (review defaultRules config spec path now).summary =
          buildSummary
            (promoteStrict (runRules (buildRuleSet defaultRules config) spec).1)) := by
  refine ⟨?_, ?_, ?_, ?_⟩
  · intro fs
    induction fs with
    | nil => rfl
    | cons f fs ih =>
        simp only [promoteStrict, List.map_cons] at *
        refine congrArg₂ List.cons ?_ ih
        by_cases hw : f.severity = Severity.warning
        · simp [promoteFinding, hw]
        · simp [promoteFinding, hw]
  · intro f hs
    simp [promoteFinding, hs]
  · intro f hw
    simp [promoteFinding, hw]
  · intro defaultRules config spec path now hstrict
    constructor <;> simp [review, hstrict]

/-- Sample finding with warning severity, used by witnesses. -/
def sampleWarning : Finding :=
  { ruleId := "aip122/plural-resources"
    severity := Severity.warning
    category := RuleCategory.naming
    path := "GET /user"
    message := "Resource name should be plural" }

/-- Sample finding with suggestion severity, used by witnesses. -/
def sampleSuggestion : Finding :=
  { ruleId := "aip158/pagination"
    severity := Severity.suggestion
    category := RuleCategory.pagination
    path := "GET /users"
    message := "Consider adding page size" }

/-- Sample document whose opaque payload is trivial, used by witnesses. -/
def sampleSpec : OpenAPISpec Unit :=
  { info := some { title := some "Sample", version := some "1.0.0" }
    payload := () }

/-- Configuration with only the strict flag set, used by witnesses. -/
def strictOnlyConfig : ReviewerConfig Unit :=
  { strict := some true }

/-- Witness for claim C2 at concrete inputs. -/
theorem strict_promotion_properties_witness :
    promoteStrict (promoteStrict [sampleWarning, sampleSuggestion]) =
        promoteStrict [sampleWarning, sampleSuggestion]
    ∧ promoteFinding sampleSuggestion = sampleSuggestion
    ∧ (promoteFinding sampleWarning).severity = Severity.error
    ∧ (review ([] : List (Rule Unit)) strictOnlyConfig sampleSpec "api.json" "t0").summary =
        buildSummary
          (promoteStrict (runRules (buildRuleSet [] strictOnlyConfig) sampleSpec).1) :=
  ⟨(strict_promotion_properties (α := Unit)).1 [sampleWarning, sampleSuggestion],
   (strict_promotion_properties (α := Unit)).2.1 sampleSuggestion rfl,
   (strict_promotion_properties (α := Unit)).2.2.1 sampleWarning rfl,
   ((strict_promotion_properties (α := Unit)).2.2.2 [] strictOnlyConfig sampleSpec
      "api.json" "t0" rfl).2⟩

/-- Helper: one summary step raises the severity total by one. -/
theorem summaryStep_severity_total (s : ReviewSummary) (f : Finding) :
    (summaryStep s f).errors + (summaryStep s f).warnings +
        (summaryStep s f).suggestions =
      s.errors + s.warnings + s.suggestions + 1 := by
  cases hs : f.severity <;> simp [summaryStep, hs] <;> omega

/-- Helper: one summary step raises the category total by one. -/
theorem summaryStep_category_total (s : ReviewSummary) (f : Finding) :
    (summaryStep s f).byCategory.total = s.byCategory.total + 1 := by
  have hinc : ∀ (b : ByCategory) (c : RuleCategory), (b.inc c).total = b.total + 1 := by
    intro b c
    cases c <;> simp [ByCategory.inc, ByCategory.total] <;> omega
  cases hs : f.severity <;> simp [summaryStep, hs, hinc]

/-- Helper: the buildSummary fold counts every finding once in the
    severity buckets and once in the category buckets. -/
theorem buildSummary_totals (fs : List Finding) :
    (buildSummary fs).errors + (buildSummary fs).warnings +
        (buildSummary fs).suggestions = fs.length
    ∧ (buildSummary fs).byCategory.total = fs.length := by
  suffices h : ∀ (fs : List Finding) (s : ReviewSummary),
      (fs.foldl summaryStep s).errors + (fs.foldl summaryStep s).warnings +
          (fs.foldl summaryStep s).suggestions =
        s.errors + s.warnings + s.suggestions + fs.length
      ∧ (fs.foldl summaryStep s).byCategory.total =
        s.byCategory.total + fs.length by
    have h0 := h fs emptySummary
    simpa [buildSummary, emptySummary, ByCategory.total] using h0
  intro fs
  induction fs with
  | nil => intro s; simp
  | cons f fs ih =>
      intro s
      obtain ⟨h1a, h1b⟩ := ih (summaryStep s f)
      have h2 := summaryStep_severity_total s f
      have h3 := summaryStep_category_total s f
      constructor
      · simp only [List.foldl_cons, List.length_cons]
        omega
      · simp only [List.foldl_cons, List.length_cons]
        omega

/-- Claim C3: for every review result, errors + warnings + suggestions
    equals the number of findings, and the nine byCategory counters also
    sum to the number of findings. -/
theorem review_summary_partition (defaultRules : List (Rule α))
    (config : ReviewerConfig α) (spec : OpenAPISpec α) (path now : String) :
    (review defaultRules config spec path now).summary.errors +
        (review defaultRules config spec path now).summary.warnings +
        (review defaultRules config spec path now).summary.suggestions =
      (review defaultRules config spec path now).findings.length
    ∧ (review defaultRules config spec path now).summary.byCategory.total =
      (review defaultRules config spec path now).findings.length := by
  have h := buildSummary_totals
    (if config.strictOn then
        promoteStrict (runRules (buildRuleSet defaultRules config) spec).1
      else (runRules (buildRuleSet defaultRules config) spec).1)
  simpa [review] using h

/-- Helper: a log line produced by one selected rule appears in the log of
    the whole run. -/
theorem mem_runRules_log {rules : List (Rule α)} {spec : OpenAPISpec α}
    {r : Rule α} (hr : r ∈ rules) {x : String}
    (hx : x ∈ (ruleOutcome r spec).2) : x ∈ (runRules rules spec).2 := by
  induction rules with
  | nil => cases hr
  | cons a l ih =>
      simp only [runRules, List.foldr_cons] at *
      rcases List.mem_cons.mp hr with heq | hmem
      · exact List.mem_append.mpr (Or.inl (heq ▸ hx))
      · exact List.mem_append.mpr (Or.inr (ih hmem))

/-- Claim C4: a rule whose check throws is caught: the error is logged with
    that rule id, the rule contributes zero findings, and the returned
    result is still the concatenation of the outcomes of every selected
    rule (with strict promotion applied afterwards when configured), so
    every other rule still runs and no exception escapes review. -/
theorem review_isolates_rule_errors (defaultRules : List (Rule α))
    (config : ReviewerConfig α) (spec : OpenAPISpec α) (path now : String)
    (rule : Rule α) (e : String)
    (hmem : rule ∈ buildRuleSet defaultRules config)
    (herr : rule.check spec (createRuleContext rule spec) = Except.error e) :
    ("Rule " ++ rule.id ++ " threw error: " ++ e) ∈
        reviewLog defaultRules config spec
    ∧ (ruleOutcome rule spec).1 = []
    ∧ (review defaultRules config spec path now).findings =
        (if config.strictOn then
            promoteStrict (runRules (buildRuleSet defaultRules config) spec).1
          else (runRules (buildRuleSet defaultRules config) spec).1) := by
  refine ⟨?_, ?_, ?_⟩
  · exact mem_runRules_log hmem (by simp [ruleOutcome, herr])
  · simp [ruleOutcome, herr]
  · simp [review]

/-- A rule whose check always throws, used by witnesses. -/
def throwingRule : Rule Unit :=
  { id := "custom/throwing"
    name := "Throwing rule"
    category := RuleCategory.errors
    severity := Severity.error
    description := "Always throws"
    check := fun _ _ => Except.error "boom" }

/-- A rule that reports one warning through createFinding, used by
    witnesses. -/
def warningRule : Rule Unit :=
  { id := "aip122/plural-resources"
    name := "Plural resources"
    category := RuleCategory.naming
    severity := Severity.warning
    description := "Resource collection segments should be plural"
    aip := some "AIP-122"
    check := fun _ ctx =>
      Except.ok [ctx.createFinding
        { path := "GET /user", message := "Resource name should be plural" }] }

/-- Witness for claim C4 at concrete inputs: with a two-rule set where the
    second rule throws, the log carries the throwing rule id, the throwing
    rule contributes nothing, and the result still carries the first rule
    finding. -/
theorem review_isolates_rule_errors_witness :
    ("Rule " ++ throwingRule.id ++ " threw error: " ++ "boom") ∈
        reviewLog [warningRule, throwingRule] {} sampleSpec
    ∧ (ruleOutcome throwingRule sampleSpec).1 = []
    ∧ (review [warningRule, throwingRule] {} sampleSpec "api.json" "t0").findings =
        (if ReviewerConfig.strictOn ({} : ReviewerConfig Unit) then
            promoteStrict (runRules (buildRuleSet [warningRule, throwingRule] {}) sampleSpec).1
          else (runRules (buildRuleSet [warningRule, throwingRule] {}) sampleSpec).1) :=
  review_isolates_rule_errors [warningRule, throwingRule] {} sampleSpec "api.json"
    "t0" throwingRule "boom" (by simp [buildRuleSet, throwingRule]) rfl

/-- Claim C6: two review calls that differ only in the wall-clock value
    agree on every field except metadata.reviewedAt; in particular the
    findings lists and summaries are identical in content and order. -/
theorem review_deterministic_up_to_timestamp (defaultRules : List (Rule α))
    (config : ReviewerConfig α) (spec : OpenAPISpec α) (path t1 t2 : String) :
    review defaultRules config spec path t2 =
      { review defaultRules config spec path t1 with
          metadata :=
            { (review defaultRules config spec path t1).metadata with
                reviewedAt := t2 } }
    ∧ (review defaultRules config spec path t1).findings =
        (review defaultRules config spec path t2).findings
    ∧ (review defaultRules config spec path t1).summary =
        (review defaultRules config spec path t2).summary :=
  ⟨rfl, rfl, rfl⟩

/-- Helper: every finding of a run comes from one of the executed rules. -/
theorem mem_runRules_findings {rules : List (Rule α)} {spec : OpenAPISpec α}
    {f : Finding} (hf : f ∈ (runRules rules spec).1) :
    ∃ r, r ∈ rules ∧ f ∈ (ruleOutcome r spec).1 := by
  induction rules with
  | nil => simp [runRules] at hf
  | cons a l ih =>
      simp only [runRules, List.foldr_cons] at hf
      rcases List.mem_append.mp hf with h | h
      · exact ⟨a, List.mem_cons_self a l, h⟩
      · obtain ⟨r, hr, hfr⟩ := ih (by simpa [runRules] using h)
        exact ⟨r, List.mem_cons_of_mem a hr, hfr⟩

/-- A rule is well tagged when every finding its check returns (under the
    context review builds for it) carries the id of that rule. This is the
    catalog convention the design document states for createFinding. -/
def WellTagged (rule : Rule α) : Prop :=
  ∀ (spec : OpenAPISpec α) (fs : List Finding),
    rule.check spec (createRuleContext rule spec) = Except.ok fs →
    ∀ f ∈ fs, f.ruleId = rule.id

/-- The finding warningRule produces, spelled through the
    createRuleContext defaults. -/
def warningFinding : Finding :=
  mergeFindingDefaults warningRule
    { path := "GET /user", message := "Resource name should be plural" }

/-- Counterexample to claim C5 as stated: with the empty category list the
    reviewer runs the full catalog (the length guard in buildRuleSet skips
    the filter), so a finding is produced although no rule lies in any
    category of the empty set. -/
theorem findings_from_selected_rules_counterexample :
    ¬ (∀ f ∈ (review [warningRule]
            { categories := some ([] : List RuleCategory) } sampleSpec
            "api.json" "t0").findings,
        ∃ r, r ∈ [warningRule] ∧ r.category ∈ ([] : List RuleCategory) ∧
          r.id ∉ ([] : List String) ∧ f.ruleId = r.id) := by
  intro h
  have hmem : warningFinding ∈ (review [warningRule]
      { categories := some ([] : List RuleCategory) } sampleSpec
      "api.json" "t0").findings := by
    show warningFinding ∈ [warningFinding]
    exact List.mem_singleton.mpr rfl
  obtain ⟨r, _, hcat, _⟩ := h warningFinding hmem
  simp at hcat

/-- Claim C5 (amended): for every document and every NON-EMPTY category
    list, when the catalog rules tag findings with their own id, every
    finding of the review belongs to a catalog rule whose category is among
    the selected categories and whose id is not skipped. -/
theorem findings_come_from_selected_rules (defaultRules : List (Rule α))
    (cats : List RuleCategory) (skips : List String) (spec : OpenAPISpec α)
    (path now : String) (hcats : cats ≠ [])
    (hwf : ∀ r ∈ defaultRules, WellTagged r) :
    ∀ f ∈ (review defaultRules
        { categories := some cats, skipRules := some skips } spec path now).findings,
      ∃ r, r ∈ defaultRules ∧ r.category ∈ cats ∧ r.id ∉ skips ∧
        f.ruleId = r.id := by
  intro f hf
  have hfind : f ∈ (runRules (buildRuleSet defaultRules
      { categories := some cats, skipRules := some skips }) spec).1 := by
    simpa [review, ReviewerConfig.strictOn] using hf
  obtain ⟨r, hr, hfr⟩ := mem_runRules_findings hfind
  have hsel : r ∈ defaultRules ∧ r.category ∈ cats ∧ r.id ∉ skips := by
    obtain ⟨c, cs, rfl⟩ : ∃ c cs, cats = c :: cs := by
      cases cats with
      | nil => exact absurd rfl hcats
      | cons c cs => exact ⟨c, cs, rfl⟩
    cases skips with
    | nil =>
        have : r ∈ getRulesByCategory defaultRules (c :: cs) := by
          simpa [buildRuleSet] using hr
        have h2 := List.mem_filter.mp this
        refine ⟨h2.1, by simpa using h2.2, by simp⟩
    | cons s ss =>
        have : r ∈ (getRulesByCategory defaultRules (c :: cs)).filter
            (fun r => !((s :: ss).contains r.id)) := by
          simpa [buildRuleSet] using hr
        have h2 := List.mem_filter.mp this
        have h3 := List.mem_filter.mp h2.1
        refine ⟨h3.1, by simpa using h3.2, ?_⟩
        have := h2.2
        simpa using this
  rcases hrc : r.check spec (createRuleContext r spec) with e | fs
  · rw [ruleOutcome, hrc] at hfr
    simp at hfr
  · rw [ruleOutcome, hrc] at hfr
    exact ⟨r, hsel.1, hsel.2.1, hsel.2.2, hwf r hsel.1 spec fs hrc f hfr⟩

/-- Witness for the amended claim C5 at concrete inputs. -/
theorem findings_come_from_selected_rules_witness :
    ∃ r, r ∈ [warningRule] ∧ r.category ∈ [RuleCategory.naming] ∧
      r.id ∉ ["other/rule"] ∧ warningFinding.ruleId = r.id :=
  findings_come_from_selected_rules [warningRule] [RuleCategory.naming]
    ["other/rule"] sampleSpec "api.json" "t0" (by simp)
    (by
      intro r hr
      have hr' : r = warningRule := by simpa using hr
      subst hr'
      intro spec fs hok f hf
      have hfs : [mergeFindingDefaults warningRule
          { path := "GET /user", message := "Resource name should be plural" }] = fs := by
        simpa [warningRule, createRuleContext] using hok
      rw [← hfs] at hf
      have : f = mergeFindingDefaults warningRule
          { path := "GET /user", message := "Resource name should be plural" } := by
        simpa using hf
      rw [this]
      rfl)
    warningFinding
    (by
      show warningFinding ∈ [warningFinding]
      exact List.mem_singleton.mpr rfl)

/-
  Worker thread embedding (mcp-server worker source file): the parentPort
  message handler, parseSpecFromBuffer, handleReview and handleApplyFixes.
  External effects (TextDecoder, the JSON and YAML parsers, the reviewer
  and fixer invocations the try blocks guard) are explicit function
  parameters; a JS throw is an Except.error.
-/

/-- Declared content type of a task buffer (json or yaml). -/
inductive ContentType where
  | json
  | yaml
deriving DecidableEq, Repr

/-- A task message received by the worker (worker-pool WorkerTask): the
    task type string, an opaque payload (cast by type at use), the shared
    byte buffer (opaque), the content type and the source label. -/
structure WorkerTask (β ρ : Type) where
  type : String
  payload : ρ
  specBuffer : β
  contentType : ContentType
  sourcePath : String

/-- The structured result a worker posts back (worker-pool WorkerResult):
    either success true with data, or success false with an error
    message. -/
inductive WorkerResult (δ : Type) where
  | ok (data : δ)
  | err (error : String)
deriving DecidableEq, Repr

/-- Worker parseSpecFromBuffer: decode the shared buffer to text, then
    parse as YAML when the content type is yaml, otherwise as JSON. -/
def parseSpecFromBuffer (decode : β → String)
    (parseYamlText parseJsonText : String → Except String σ)
    (buffer : β) (contentType : ContentType) : Except String σ :=
  let text := decode buffer
  match contentType with
  | ContentType.yaml => parseYamlText text
  | ContentType.json => parseJsonText text

/-- Worker handleReview: run the review under a try block; a throw becomes
    success false with the message. -/
def handleReview (runReview : ρ → σ → String → Except String δ)
    (payload : ρ) (spec : σ) (sourcePath : String) : WorkerResult δ :=
  match runReview payload spec sourcePath with
  | Except.ok d => WorkerResult.ok d
  | Except.error e => WorkerResult.err e

/-- Worker handleApplyFixes: run the fixer under a try block; a throw
    becomes success false with the message. -/
def handleApplyFixes (runFixes : ρ → σ → String → Except String δ)
    (payload : ρ) (spec : σ) (sourcePath : String) : WorkerResult δ :=
  match runFixes payload spec sourcePath with
  | Except.ok d => WorkerResult.ok d
  | Except.error e => WorkerResult.err e

/-- The parentPort message handler of the worker: parse the buffer (a
    throw is converted to a Failed-to-parse result), dispatch on the task
    type string, answer unknown types with an error result, and post
    exactly the one computed result. -/
def messageHandler (decode : β → String)
    (parseYamlText parseJsonText : String → Except String σ)
    (runReview runFixes : ρ → σ → String → Except String δ)
    (task : WorkerTask β ρ) : WorkerResult δ :=
  match parseSpecFromBuffer decode parseYamlText parseJsonText
      task.specBuffer task.contentType with
  | Except.error e => WorkerResult.err ("Failed to parse spec: " ++ e)
  | Except.ok spec =>
      if task.type = "review" then
        handleReview runReview task.payload spec task.sourcePath
      else if task.type = "apply-fixes" then
        handleApplyFixes runFixes task.payload spec task.sourcePath
      else
        WorkerResult.err ("Unknown task type: " ++ task.type)

/-- Claim C7: for every task message the worker computes exactly one
    structured result, success-with-data or failure-with-error; a parse
    throw, a review or fix throw and an unknown task type each yield the
    failure form, and the handler is a total function, so no exception
    propagates out of it. -/
theorem worker_posts_one_structured_result (decode : β → String)
    (parseYamlText parseJsonText : String → Except String σ)
    (runReview runFixes : ρ → σ → String → Except String δ)
    (task : WorkerTask β ρ) :
    ((∃ d, messageHandler decode parseYamlText parseJsonText runReview runFixes
        task = WorkerResult.ok d)
      ∨ (∃ e, messageHandler decode parseYamlText parseJsonText runReview runFixes
        task = WorkerResult.err e))
    ∧ (∀ e, parseSpecFromBuffer decode parseYamlText parseJsonText
          task.specBuffer task.contentType = Except.error e →
        messageHandler decode parseYamlText parseJsonText runReview runFixes
            task = WorkerResult.err ("Failed to parse spec: " ++ e))
    ∧ (∀ spec e, parseSpecFromBuffer decode parseYamlText parseJsonText
          task.specBuffer task.contentType = Except.ok spec →
        task.type = "review" →
        runReview task.payload spec task.sourcePath = Except.error e →
        messageHandler decode parseYamlText parseJsonText runReview runFixes
            task = WorkerResult.err e)
    ∧ (∀ spec e, parseSpecFromBuffer decode parseYamlText parseJsonText
          task.specBuffer task.contentType = Except.ok spec →
        task.type = "apply-fixes" →
        runFixes task.payload spec task.sourcePath = Except.error e →
        messageHandler decode parseYamlText parseJsonText runReview runFixes
            task = WorkerResult.err e)
    ∧ (∀ spec, parseSpecFromBuffer decode parseYamlText parseJsonText
          task.specBuffer task.contentType = Except.ok spec →
        task.type ≠ "review" → task.type ≠ "apply-fixes" →
        messageHandler decode parseYamlText parseJsonText runReview runFixes
            task = WorkerResult.err ("Unknown task type: " ++ task.type)) := by
  refine ⟨?_, ?_, ?_, ?_, ?_⟩
  · cases h : messageHandler decode parseYamlText parseJsonText runReview runFixes
        task with
    | ok d => exact Or.inl ⟨d, rfl⟩
    | err e => exact Or.inr ⟨e, rfl⟩
  · intro e he
    simp [messageHandler, he]
  · intro spec e hok htype herr
    simp [messageHandler, hok, htype, handleReview, herr]
  · intro spec e hok htype herr
    have hne : task.type ≠ "review" := by simp [htype]
    simp [messageHandler, hok, htype, hne, handleApplyFixes, herr]
  · intro spec hok h1 h2
    simp [messageHandler, hok, h1, h2]

/-- Witness for claim C7 at concrete inputs: a task of unknown type over a
    one-byte buffer, with parsers and runners instantiated concretely. -/
theorem worker_posts_one_structured_result_witness :
    ((∃ d, messageHandler (fun (_ : Unit) => "{}")
        (fun _ => Except.ok 0) (fun _ => Except.ok 0)
        (fun (_ : Unit) (_ : Nat) _ => Except.ok "r")
        (fun _ _ _ => Except.ok "f")
        { type := "frobnicate", payload := (), specBuffer := (),
          contentType := ContentType.json, sourcePath := "api.json" } =
          WorkerResult.ok d)
      ∨ (∃ e, messageHandler (fun (_ : Unit) => "{}")
        (fun _ => Except.ok 0) (fun _ => Except.ok 0)
        (fun (_ : Unit) (_ : Nat) _ => Except.ok "r")
        (fun _ _ _ => Except.ok "f")
        { type := "frobnicate", payload := (), specBuffer := (),
          contentType := ContentType.json, sourcePath := "api.json" } =
          WorkerResult.err e))
    ∧ messageHandler (fun (_ : Unit) => "{}")
        (fun _ => Except.ok 0) (fun _ => Except.ok 0)
        (fun (_ : Unit) (_ : Nat) _ => Except.ok "r")
        (fun _ _ _ => Except.ok "f")
        { type := "frobnicate", payload := (), specBuffer := (),
          contentType := ContentType.json, sourcePath := "api.json" } =
          WorkerResult.err ("Unknown task type: " ++ "frobnicate") :=
  ⟨(worker_posts_one_structured_result (fun (_ : Unit) => "{}")
      (fun _ => Except.ok 0) (fun _ => Except.ok 0)
      (fun (_ : Unit) (_ : Nat) _ => Except.ok "r")
      (fun _ _ _ => Except.ok "f")
      { type := "frobnicate", payload := (), specBuffer := (),
        contentType := ContentType.json, sourcePath := "api.json" }).1,
   (worker_posts_one_structured_result (fun (_ : Unit) => "{}")
      (fun _ => Except.ok 0) (fun _ => Except.ok 0)
      (fun (_ : Unit) (_ : Nat) _ => Except.ok "r")
      (fun _ _ _ => Except.ok "f")
      { type := "frobnicate", payload := (), specBuffer := (),
        contentType := ContentType.json, sourcePath := "api.json" }).2.2.2.2
     0 rfl (by decide) (by decide)⟩

/-
  Allocation-level embedding of buildRuleSet and getRules, for the aliasing
  claim: JS arrays live in a heap of rule arrays addressed by Nat refs; the
  spread operator and filter allocate fresh arrays, and the module-level
  defaultRules array is the entry at the given ref. getRulesByCategory is
  modelled (spec section 4.1) as presenting a fresh merged view, never an
  in-place append.
-/

/-- A heap of JS rule arrays; a ref is an index. -/
structure RuleHeap (α : Type) where
  arrays : List (List (Rule α))

/-- Dereference (out-of-range refs read as empty, never reached under the
    validity hypotheses used below). -/
def RuleHeap.get (h : RuleHeap α) (r : Nat) : List (Rule α) :=
  h.arrays.getD r []

/-- Allocate a fresh array holding v, returning the grown heap and the
    fresh ref. -/
def RuleHeap.alloc (h : RuleHeap α) (v : List (Rule α)) : RuleHeap α × Nat :=
  ({ arrays := h.arrays ++ [v] }, h.arrays.length)

/-- Overwrite the array behind a ref (models a caller mutating an array it
    was handed). -/
def RuleHeap.write (h : RuleHeap α) (r : Nat) (v : List (Rule α)) : RuleHeap α :=
  { arrays := h.arrays.set r v }

theorem RuleHeap.get_alloc_of_lt (h : RuleHeap α) (v : List (Rule α)) {r : Nat}
    (hr : r < h.arrays.length) : ((h.alloc v).1).get r = h.get r :=
  List.getD_append _ _ _ _ hr

theorem RuleHeap.get_alloc_self (h : RuleHeap α) (v : List (Rule α)) :
    ((h.alloc v).1).get (h.alloc v).2 = v := by
  show (h.arrays ++ [v]).getD h.arrays.length [] = v
  rw [List.getD_append_right _ _ _ _ (Nat.le_refl _)]
  simp

theorem RuleHeap.alloc_length (h : RuleHeap α) (v : List (Rule α)) :
    (h.alloc v).1.arrays.length = h.arrays.length + 1 := by
  simp [RuleHeap.alloc]

theorem RuleHeap.alloc_ref (h : RuleHeap α) (v : List (Rule α)) :
    (h.alloc v).2 = h.arrays.length := rfl

theorem RuleHeap.get_write_of_ne (h : RuleHeap α) (v : List (Rule α)) {r w : Nat}
    (hne : w ≠ r) : (h.write w v).get r = h.get r := by
  show (h.arrays.set w v).getD r [] = h.arrays.getD r []
  rw [List.getD_eq_getD_get?, List.getD_eq_getD_get?]
  congr 1
  simp only [List.get?_eq_getElem?]
  exact List.getElem?_set_ne hne

/-- Value level of the category branch of buildRuleSet. -/
def catStep (defaultRules : List (Rule α)) (cats? : Option (List RuleCategory))
    (x : List (Rule α)) : List (Rule α) :=
  match cats? with
  | some cats =>
      if 0 < cats.length then getRulesByCategory defaultRules cats else x
  | none => x

/-- Value level of the skip branch of buildRuleSet. -/
def skipStep (skips? : Option (List String)) (x : List (Rule α)) : List (Rule α) :=
  match skips? with
  | some skips =>
      if 0 < skips.length then x.filter (fun r => !(skips.contains r.id)) else x
  | none => x

/-- Value level of the custom-rule branch of buildRuleSet. -/
def customStep (custom? : Option (List (Rule α))) (x : List (Rule α)) :
    List (Rule α) :=
  match custom? with
  | some custom => x ++ custom
  | none => x

/-- buildRuleSet is the composition of its three reassignments. -/
theorem buildRuleSet_eq_steps (defaultRules : List (Rule α))
    (config : ReviewerConfig α) :
    buildRuleSet defaultRules config =
      customStep config.customRules
        (skipStep config.skipRules
          (catStep defaultRules config.categories defaultRules)) := rfl

/-- Heap level of the category branch: getRulesByCategory allocates a fresh
    array from the catalog when it runs. -/
def catStepH (defaultRef : Nat) (cats? : Option (List RuleCategory))
    (p : RuleHeap α × Nat) : RuleHeap α × Nat :=
  match cats? with
  | some cats =>
      if 0 < cats.length then
        p.1.alloc (getRulesByCategory (p.1.get defaultRef) cats)
      else p
  | none => p

/-- Heap level of the skip branch: filter allocates a fresh array. -/
def skipStepH (skips? : Option (List String)) (p : RuleHeap α × Nat) :
    RuleHeap α × Nat :=
  match skips? with
  | some skips =>
      if 0 < skips.length then
        p.1.alloc ((p.1.get p.2).filter (fun r => !(skips.contains r.id)))
      else p
  | none => p

/-- Heap level of the custom-rule branch: the double spread allocates a
    fresh array. -/
def customStepH (custom? : Option (List (Rule α))) (p : RuleHeap α × Nat) :
    RuleHeap α × Nat :=
  match custom? with
  | some custom => p.1.alloc ((p.1.get p.2) ++ custom)
  | none => p

/-- Heap level of buildRuleSet: the initial spread copy of defaultRules,
    then the three conditional reassignments. -/
def buildRuleSetH (h : RuleHeap α) (defaultRef : Nat) (config : ReviewerConfig α) :
    RuleHeap α × Nat :=
  customStepH config.customRules
    (skipStepH config.skipRules
      (catStepH defaultRef config.categories (h.alloc (h.get defaultRef))))

/-- Heap level of getRules: return a fresh spread copy of the rule
    array. -/
def getRulesH (h : RuleHeap α) (rulesRef : Nat) : RuleHeap α × Nat :=
  h.alloc (h.get rulesRef)

/-- Invariant carried along the allocation chain: the heap only grew, the
    catalog entry at d is untouched, the working ref is fresh, valid, and
    holds x. -/
def Chain (h : RuleHeap α) (d : Nat) (x : List (Rule α))
    (p : RuleHeap α × Nat) : Prop :=
  h.arrays.length ≤ p.1.arrays.length ∧ p.1.get d = h.get d ∧
    h.arrays.length ≤ p.2 ∧ p.2 < p.1.arrays.length ∧ p.1.get p.2 = x

theorem chain_alloc {h : RuleHeap α} {d : Nat} {x : List (Rule α)}
    {p : RuleHeap α × Nat} (hd : d < h.arrays.length) (hc : Chain h d x p)
    (v : List (Rule α)) : Chain h d v (p.1.alloc v) := by
  obtain ⟨hlen, hget, _, _, _⟩ := hc
  refine ⟨?_, ?_, ?_, ?_, RuleHeap.get_alloc_self _ _⟩
  · rw [RuleHeap.alloc_length]; omega
  · rw [RuleHeap.get_alloc_of_lt _ _ (Nat.lt_of_lt_of_le hd hlen), hget]
  · rw [RuleHeap.alloc_ref]; omega
  · rw [RuleHeap.alloc_ref, RuleHeap.alloc_length]; omega

theorem chain_init {h : RuleHeap α} {d : Nat} (hd : d < h.arrays.length) :
    Chain h d (h.get d) (h.alloc (h.get d)) := by
  refine ⟨?_, RuleHeap.get_alloc_of_lt _ _ hd, ?_, ?_,
    RuleHeap.get_alloc_self _ _⟩
  · rw [RuleHeap.alloc_length]; omega
  · rw [RuleHeap.alloc_ref]
  · rw [RuleHeap.alloc_ref, RuleHeap.alloc_length]; omega

theorem catStepH_chain {h : RuleHeap α} {d : Nat} {x : List (Rule α)}
    {p : RuleHeap α × Nat} (hd : d < h.arrays.length) (hc : Chain h d x p)
    (cats? : Option (List RuleCategory)) :
    Chain h d (catStep (h.get d) cats? x) (catStepH d cats? p) := by
  cases cats? with
  | none => exact hc
  | some cats =>
      by_cases hl : 0 < cats.length
      · simp only [catStep, catStepH, if_pos hl]
        rw [← hc.2.1]
        exact chain_alloc hd hc _
      · simpa only [catStep, catStepH, if_neg hl] using hc

theorem skipStepH_chain {h : RuleHeap α} {d : Nat} {x : List (Rule α)}
    {p : RuleHeap α × Nat} (hd : d < h.arrays.length) (hc : Chain h d x p)
    (skips? : Option (List String)) :
    Chain h d (skipStep skips? x) (skipStepH skips? p) := by
  cases skips? with
  | none => exact hc
  | some skips =>
      by_cases hl : 0 < skips.length
      · simp only [skipStep, skipStepH, if_pos hl]
        rw [← hc.2.2.2.2]
        exact chain_alloc hd hc _
      · simpa only [skipStep, skipStepH, if_neg hl] using hc

theorem customStepH_chain {h : RuleHeap α} {d : Nat} {x : List (Rule α)}
    {p : RuleHeap α × Nat} (hd : d < h.arrays.length) (hc : Chain h d x p)
    (custom? : Option (List (Rule α))) :
    Chain h d (customStep custom? x) (customStepH custom? p) := by
  cases custom? with
  | none => exact hc
  | some custom =>
      simp only [customStep, customStepH]
      rw [← hc.2.2.2.2]
      exact chain_alloc hd hc _

/-- Helper: constructing a reviewer only allocates, and the final ref holds
    exactly the value-level rule set. -/
theorem buildRuleSetH_chain (h : RuleHeap α) (d : Nat)
    (config : ReviewerConfig α) (hd : d < h.arrays.length) :
    Chain h d (buildRuleSet (h.get d) config) (buildRuleSetH h d config) := by
  rw [buildRuleSet_eq_steps]
  exact customStepH_chain hd
    (skipStepH_chain hd (catStepH_chain hd (chain_init hd) config.categories)
      config.skipRules) config.customRules

/-- Claim C9: constructing a reviewer never mutates the module-level
    defaultRules array under any configuration, the constructed rule array
    is a fresh ref holding the value-level rule set, getRules hands out yet
    another fresh ref with the same content, and overwriting the array
    getRules returned changes neither the rule array of the reviewer nor
    the catalog. -/
theorem reviewer_aliasing_frame (h : RuleHeap α) (d : Nat)
    (config : ReviewerConfig α) (hd : d < h.arrays.length) :
    ((buildRuleSetH h d config).1.get d = h.get d)
    ∧ (buildRuleSetH h d config).2 ≠ d
    ∧ (buildRuleSetH h d config).1.get (buildRuleSetH h d config).2 =
        buildRuleSet (h.get d) config
    ∧ (getRulesH (buildRuleSetH h d config).1 (buildRuleSetH h d config).2).2 ≠
        (buildRuleSetH h d config).2
    ∧ (getRulesH (buildRuleSetH h d config).1 (buildRuleSetH h d config).2).1.get
          (getRulesH (buildRuleSetH h d config).1 (buildRuleSetH h d config).2).2 =
        buildRuleSet (h.get d) config
    ∧ ∀ v,
        (((getRulesH (buildRuleSetH h d config).1
              (buildRuleSetH h d config).2).1.write
            (getRulesH (buildRuleSetH h d config).1
              (buildRuleSetH h d config).2).2 v).get
          (buildRuleSetH h d config).2 = buildRuleSet (h.get d) config)
        ∧ (((getRulesH (buildRuleSetH h d config).1
              (buildRuleSetH h d config).2).1.write
            (getRulesH (buildRuleSetH h d config).1
              (buildRuleSetH h d config).2).2 v).get d = h.get d) := by
  obtain ⟨hlen, hgetd, hrlo, hrhi, hval⟩ := buildRuleSetH_chain h d config hd
  have hfresh : (getRulesH (buildRuleSetH h d config).1
      (buildRuleSetH h d config).2).2 = (buildRuleSetH h d config).1.arrays.length :=
    rfl
  refine ⟨hgetd, by omega, hval, by rw [hfresh]; omega, ?_, ?_⟩
  · rw [show (getRulesH (buildRuleSetH h d config).1
        (buildRuleSetH h d config).2).1.get
          (getRulesH (buildRuleSetH h d config).1
            (buildRuleSetH h d config).2).2 =
        (buildRuleSetH h d config).1.get (buildRuleSetH h d config).2 from
      RuleHeap.get_alloc_self _ _]
    exact hval
  · intro v
    constructor
    · rw [RuleHeap.get_write_of_ne _ _ (by rw [hfresh]; omega)]
      show ((buildRuleSetH h d config).1.alloc
          ((buildRuleSetH h d config).1.get (buildRuleSetH h d config).2)).1.get
          (buildRuleSetH h d config).2 = buildRuleSet (h.get d) config
      rw [RuleHeap.get_alloc_of_lt _ _ hrhi]
      exact hval
    · rw [RuleHeap.get_write_of_ne _ _ (by rw [hfresh]; omega)]
      show ((buildRuleSetH h d config).1.alloc
          ((buildRuleSetH h d config).1.get (buildRuleSetH h d config).2)).1.get
          d = h.get d
      rw [RuleHeap.get_alloc_of_lt _ _ (by omega)]
      exact hgetd

/-- Witness for claim C9 at concrete inputs: a one-array heap holding the
    catalog and the empty configuration. -/
theorem reviewer_aliasing_frame_witness :
    ((buildRuleSetH { arrays := [[warningRule]] } 0 ({} : ReviewerConfig Unit)).1.get 0 =
        RuleHeap.get { arrays := [[warningRule]] } 0)
    ∧ (buildRuleSetH { arrays := [[warningRule]] } 0 ({} : ReviewerConfig Unit)).2 ≠ 0 :=
  ⟨(reviewer_aliasing_frame { arrays := [[warningRule]] } 0 {} (by decide)).1,
   (reviewer_aliasing_frame { arrays := [[warningRule]] } 0 {} (by decide)).2.1⟩

/-
  Spec loader embedding (mcp-server tools spec-loader): parseSpec. The
  JSON.parse builtin and the dynamically imported yaml parser are explicit
  parameters; a missing yaml package is the none case of the optional
  parser, and a JS throw is an Except.error.
-/

/-- JS String endsWith, as a suffix test on the character list. -/
def stringEndsWith (s ext : String) : Bool :=
  ext.data.isSuffixOf s.data

/-- spec-loader parseSpec: try JSON first; on failure try YAML only when
    the source path ends in .yaml or .yml (and the yaml package loads),
    otherwise fail with the JSON parse error message. -/
def parseSpec (parseJsonText : String → Except String σ)
    (yamlModule : Option (String → Except String σ))
    (content : String) (sourcePath : String) : Except String σ :=
  match parseJsonText content with
  | Except.ok v => Except.ok v
  | Except.error _ =>
      if stringEndsWith sourcePath ".yaml" || stringEndsWith sourcePath ".yml" then
        match yamlModule with
        | some parseYamlText =>
            match parseYamlText content with
            | Except.ok v => Except.ok v
            | Except.error _ =>
                Except.error
                  "Failed to parse YAML spec. Ensure the yaml package is installed."
        | none =>
            Except.error
              "Failed to parse YAML spec. Ensure the yaml package is installed."
      else Except.error ("Failed to parse spec as JSON from " ++ sourcePath)

/-- Claim C10: parseSpec always attempts JSON first, whatever the declared
    format; on JSON failure it attempts YAML exactly when the source path
    ends in .yaml or .yml; for any other source path it fails with the
    JSON parse error, even when the YAML parser would accept the
    content. -/
theorem parseSpec_json_first_yaml_by_extension
    (parseJsonText : String → Except String σ)
    (parseYamlText : String → Except String σ)
    (content sourcePath : String) :
    (∀ v, parseJsonText content = Except.ok v →
      parseSpec parseJsonText (some parseYamlText) content sourcePath =
        Except.ok v)
    ∧ (∀ e, parseJsonText content = Except.error e →
        (stringEndsWith sourcePath ".yaml" || stringEndsWith sourcePath ".yml") = true →
        parseSpec parseJsonText (some parseYamlText) content sourcePath =
          (match parseYamlText content with
          | Except.ok v => Except.ok v
          | Except.error _ =>
              Except.error
                "Failed to parse YAML spec. Ensure the yaml package is installed."))
    ∧ (∀ e w, parseJsonText content = Except.error e →
        stringEndsWith sourcePath ".yaml" = false →
        stringEndsWith sourcePath ".yml" = false →
        parseYamlText content = Except.ok w →
        parseSpec parseJsonText (some parseYamlText) content sourcePath =
          Except.error ("Failed to parse spec as JSON from " ++ sourcePath)) := by
  refine ⟨?_, ?_, ?_⟩
  · intro v hv
    simp [parseSpec, hv]
  · intro e he hext
    simp [parseSpec, he, hext]
  · intro e w he h1 h2 _
    simp [parseSpec, he, h1, h2]

/-- A toy JSON parser accepting exactly one text, used by the C10
    witness. -/
def toyJson (s : String) : Except String Nat :=
  if s = "{}" then Except.ok 0 else Except.error "Unexpected token"

/-- A toy YAML parser accepting everything, used by the C10 witness. -/
def toyYaml (_ : String) : Except String Nat :=
  Except.ok 1

/-- Witness for claim C10 at concrete inputs: valid-YAML content behind a
    .txt path is rejected with the JSON error although the YAML parser
    accepts it, while the same content behind a .yaml path goes through the
    YAML parser. -/
theorem parseSpec_json_first_yaml_by_extension_witness :
    parseSpec toyJson (some toyYaml) "a: 1" "openapi.txt" =
        Except.error ("Failed to parse spec as JSON from " ++ "openapi.txt")
    ∧ parseSpec toyJson (some toyYaml) "a: 1" "openapi.yaml" =
        (match toyYaml "a: 1" with
        | Except.ok v => Except.ok v
        | Except.error _ =>
            Except.error
              "Failed to parse YAML spec. Ensure the yaml package is installed.")
    ∧ parseSpec toyJson (some toyYaml) "{}" "openapi.txt" = Except.ok 0 :=
  ⟨(parseSpec_json_first_yaml_by_extension toyJson toyYaml "a: 1"
      "openapi.txt").2.2 "Unexpected token" 1 (by rfl) (by decide) (by decide)
      (by rfl),
   (parseSpec_json_first_yaml_by_extension toyJson toyYaml "a: 1"
      "openapi.yaml").2.1 "Unexpected token" (by rfl) (by decide),
   (parseSpec_json_first_yaml_by_extension toyJson toyYaml "{}"
      "openapi.txt").1 0 (by rfl)⟩

/-
  Fixer embedding. The OpenAPIFixer implementation is not under src; only
  its callers (the worker, the apply-fixes tool) and its input schemas
  (SpecChangeSchema, FixSchema, FindingWithFixSchema) are. The document
  model and the five change operations below are therefore modelled from
  the design document (sections 4.3, 8, 9); the input shapes follow the
  zod schemas of the apply-fixes tool, which are in src.
-/

/-- A parsed JSON/YAML document node. Numeric literals are kept as their
    source text; fix application never computes with them. -/
inductive Json where
  | null
  | bool (b : Bool)
  | num (lit : String)
  | str (s : String)
  | arr (items : List Json)
  | obj (fields : List (String × Json))

/-- Look a key up in a mapping. -/
def getField (fields : List (String × Json)) (k : String) : Option Json :=
  (fields.find? (fun p => p.1 == k)).map (fun p => p.2)

/-- Replace the value behind a key, appending the key when absent. -/
def setField (fields : List (String × Json)) (k : String) (v : Json) :
    List (String × Json) :=
  if fields.any (fun p => p.1 == k) then
    fields.map (fun p => if p.1 == k then (k, v) else p)
  else fields ++ [(k, v)]

/-- Rename a key, keeping its value. -/
def renameField (fields : List (String × Json)) (fromKey toKey : String) :
    List (String × Json) :=
  fields.map (fun p => if p.1 == fromKey then (toKey, p.2) else p)

/-- Modelled from the spec: navigate a key/index path and rewrite the node
    at its end with f; a step that does not resolve is a fix-application
    error. -/
def updateAtPathE (f : Json → Except String Json) :
    Json → List String → Except String Json
  | doc, [] => f doc
  | Json.obj fields, k :: rest =>
      match getField fields k with
      | some child =>
          (updateAtPathE f child rest).map (fun c => Json.obj (setField fields k c))
      | none => Except.error ("path does not resolve: " ++ k)
  | Json.arr items, k :: rest =>
      match k.toNat? with
      | some i =>
          if h : i < items.length then
            (updateAtPathE f (items.get ⟨i, h⟩) rest).map
              (fun c => Json.arr (items.set i c))
          else Except.error ("path does not resolve: " ++ k)
      | none => Except.error ("cannot index a sequence with key: " ++ k)
  | _, k :: _ => Except.error ("path does not resolve: " ++ k)

/-- Modelled from the spec: the set change replaces the value at the path,
    creating intermediate containers where the path does not resolve. -/
def setAtPath : Json → List String → Json → Json
  | _, [], v => v
  | Json.obj fields, k :: rest, v =>
      let child := (getField fields k).getD (Json.obj [])
      Json.obj (setField fields k (setAtPath child rest v))
  | Json.arr items, k :: rest, v =>
      match k.toNat? with
      | some i =>
          if h : i < items.length then
            Json.arr (items.set i (setAtPath (items.get ⟨i, h⟩) rest v))
          else Json.arr (items ++ [setAtPath (Json.obj []) rest v])
      | none => Json.obj (setField [] k (setAtPath (Json.obj []) rest v))
  | _, k :: rest, v =>
      Json.obj (setField [] k (setAtPath (Json.obj []) rest v))

/-- Modelled from the spec: the remove change deletes the node at the
    path; a non-existent path is a no-error no-op. -/
def removeAtPath : Json → List String → Json
  | doc, [] => doc
  | Json.obj fields, [k] => Json.obj (fields.filter (fun p => !(p.1 == k)))
  | Json.arr items, [k] =>
      match k.toNat? with
      | some i => Json.arr (items.take i ++ items.drop (i + 1))
      | none => Json.arr items
  | Json.obj fields, k :: rest =>
      match getField fields k with
      | some child => Json.obj (setField fields k (removeAtPath child rest))
      | none => Json.obj fields
  | Json.arr items, k :: rest =>
      match k.toNat? with
      | some i =>
          if h : i < items.length then
            Json.arr (items.set i (removeAtPath (items.get ⟨i, h⟩) rest))
          else Json.arr items
      | none => Json.arr items
  | doc, _ => doc

/-- Modelled from the spec: the add change inserts at the final key or
    sequence position; an existing mapping key is an error (set must be
    used to overwrite), sequence insertion never overwrites. -/
def addAtPath (doc : Json) (path : List String) (v : Json) :
    Except String Json :=
  match path.getLast? with
  | none => Except.error "add requires a non-empty path"
  | some k =>
      updateAtPathE
        (fun parent =>
          match parent with
          | Json.obj fields =>
              if fields.any (fun p => p.1 == k) then
                Except.error ("add target already exists: " ++ k)
              else Except.ok (Json.obj (fields ++ [(k, v)]))
          | Json.arr items =>
              match k.toNat? with
              | some i =>
                  if i ≤ items.length then
                    Except.ok (Json.arr (items.take i ++ [v] ++ items.drop i))
                  else Except.error ("add index out of range: " ++ k)
              | none => Except.error ("cannot index a sequence with key: " ++ k)
          | _ => Except.error "add target is not a container")
        doc path.dropLast

/-- Shallow merge of mapping fields; keys of the merged value take
    precedence. -/
def mergeFields (fields vf : List (String × Json)) : List (String × Json) :=
  vf.foldl (fun acc kv => setField acc kv.1 kv.2) fields

/-- Modelled from the spec: the merge change shallow-merges a mapping
    value into the mapping at the path; a non-mapping value or target is a
    fix-application error (design document section 9). -/
def mergeAtPath (doc : Json) (path : List String) (v : Json) :
    Except String Json :=
  updateAtPathE
    (fun node =>
      match node, v with
      | Json.obj fields, Json.obj vf => Except.ok (Json.obj (mergeFields fields vf))
      | Json.obj _, _ => Except.error "merge value is not a mapping"
      | _, _ => Except.error "merge target is not a mapping")
    doc path

/-- Modelled from the spec: the rename-key change renames the key matching
    from inside the mapping at the path, preserving its value. -/
def renameKeyAtPath (doc : Json) (path : List String) (fromKey toKey : String) :
    Except String Json :=
  updateAtPathE
    (fun node =>
      match node with
      | Json.obj fields =>
          if fields.any (fun p => p.1 == fromKey) then
            Except.ok (Json.obj (renameField fields fromKey toKey))
          else Except.error ("rename-key source missing: " ++ fromKey)
      | _ => Except.error "rename-key target is not a mapping")
    doc path

/-- The five change operations (apply-fixes tool SpecChangeSchema). -/
inductive ChangeOp where
  | renameKey
  | set
  | add
  | remove
  | merge
deriving DecidableEq, Repr

/-- One primitive document mutation (apply-fixes tool SpecChangeSchema). -/
structure SpecChange where
  operation : ChangeOp
  path : String
  from_ : Option String := none
  to_ : Option String := none
  value : Option Json := none

/-- A fix descriptor attached to a finding (apply-fixes tool FixSchema). -/
structure FixDescriptor where
  type : String
  jsonPath : String
  specChanges : List SpecChange

/-- A finding as the apply-fixes tool accepts it (FindingWithFixSchema):
    category is a plain string there, and the fix is optional. -/
structure FindingWithFix where
  ruleId : String
  severity : Severity
  category : String
  path : String
  message : String
  aip : Option String := none
  suggestion : Option String := none
  fix : Option FixDescriptor := none

/-- Split a character list on the dot separator. -/
def splitOnDot : List Char → List (List Char)
  | [] => [[]]
  | c :: rest =>
      let r := splitOnDot rest
      if c = '.' then [] :: r
      else
        match r with
        | [] => [[c]]
        | s :: ss => (c :: s) :: ss

/-- Modelled from the spec: a path string is read as a dot-separated key
    sequence with an optional leading root marker; the exact JSONPath
    dialect is not fixed by the design document. -/
def pathSegments (path : String) : List String :=
  ((splitOnDot path.data).map (fun cs => String.mk cs)).filter
    (fun seg => seg != "$" && seg != "")

/-- Dispatch one change to its operation. -/
def applyChangeE (doc : Json) (c : SpecChange) : Except String Json :=
  let segs := pathSegments c.path
  match c.operation with
  | ChangeOp.set => Except.ok (setAtPath doc segs (c.value.getD Json.null))
  | ChangeOp.remove => Except.ok (removeAtPath doc segs)
  | ChangeOp.add => addAtPath doc segs (c.value.getD Json.null)
  | ChangeOp.merge => mergeAtPath doc segs (c.value.getD Json.null)
  | ChangeOp.renameKey =>
      match c.from_, c.to_ with
      | some fromKey, some toKey => renameKeyAtPath doc segs fromKey toKey
      | _, _ => Except.error "rename-key requires from and to"

/-- A recorded fix-application error. -/
structure FixError where
  ruleId : String
  path : String
  message : String
deriving DecidableEq, Repr

/-- Per-finding outcome. -/
inductive FixStatus where
  | applied
  | skipped
  | failed
deriving DecidableEq, Repr

/-- Per-finding result entry. -/
structure FixResult where
  ruleId : String
  status : FixStatus
deriving DecidableEq, Repr

/-- Apply one change to the working document: a failing change records an
    error and leaves the document as it was, so later changes are still
    attempted. -/
def applyChange (doc : Json) (ruleId : String) (c : SpecChange) :
    Json × Option FixError :=
  match applyChangeE doc c with
  | Except.ok d => (d, none)
  | Except.error m => (doc, some { ruleId := ruleId, path := c.path, message := m })

/-- Apply the ordered change list of one fix against the working copy. -/
def applyChanges (doc : Json) (ruleId : String) (changes : List SpecChange) :
    Json × List FixError :=
  changes.foldl
    (fun acc c =>
      let next := applyChange acc.1 ruleId c
      (next.1, acc.2 ++ next.2.toList))
    (doc, [])

/-- Process one finding: a finding without a fix is skipped, one whose
    changes all apply is applied, one with any failing change is failed;
    the working copy is shared across the batch. -/
def applyFinding (doc : Json) (f : FindingWithFix) :
    Json × FixResult × List FixError :=
  match f.fix with
  | none => (doc, { ruleId := f.ruleId, status := FixStatus.skipped }, [])
  | some fx =>
      let ran := applyChanges doc f.ruleId fx.specChanges
      (ran.1,
       { ruleId := f.ruleId
         status := if ran.2.isEmpty then FixStatus.applied else FixStatus.failed },
       ran.2)

/-- Fold the whole batch in input order over one shared working copy. -/
def applyFixesCore (doc : Json) (findings : List FindingWithFix) :
    Json × List FixResult × List FixError :=
  findings.foldl
    (fun acc f =>
      let step := applyFinding acc.1 f
      (step.1, acc.2.1 ++ [step.2.1], acc.2.2 ++ step.2.2))
    (doc, [], [])

/-- Counts of applied / skipped / failed fixes (getSummary). -/
structure FixSummary where
  applied : Nat
  skipped : Nat
  failed : Nat
deriving DecidableEq, Repr

/-- Summary of a result list. -/
def fixSummaryOf (rs : List FixResult) : FixSummary :=
  { applied := (rs.filter (fun r => r.status == FixStatus.applied)).length
    skipped := (rs.filter (fun r => r.status == FixStatus.skipped)).length
    failed := (rs.filter (fun r => r.status == FixStatus.failed)).length }

/-- What the fixer hands back to its caller. -/
structure FixerOutput where
  modifiedSpec : Json
  results : List FixResult
  errors : List FixError
  summary : FixSummary

/-- Modelled from the spec: one OpenAPIFixer run. Dry-run mode performs
    the identical validation and path-resolution work over the same
    threaded working copy and discards the mutations at the end: the
    caller gets the untouched input document back, with the results and
    errors of the real run. -/
def applyFixesRun (doc : Json) (dryRun : Bool) (findings : List FindingWithFix) :
    FixerOutput :=
  let ran := applyFixesCore doc findings
  { modifiedSpec := if dryRun then doc else ran.1
    results := ran.2.1
    errors := ran.2.2
    summary := fixSummaryOf ran.2.1 }

/-- Claim C8: a dry run returns a document structurally equal to the
    input, and reports exactly the errors, results and summary of the
    non-dry run on the same input. -/
theorem applyFixes_dryRun_frame (doc : Json) (findings : List FindingWithFix) :
    (applyFixesRun doc true findings).modifiedSpec = doc
    ∧ (applyFixesRun doc true findings).errors =
        (applyFixesRun doc false findings).errors
    ∧ (applyFixesRun doc true findings).results =
        (applyFixesRun doc false findings).results
    ∧ (applyFixesRun doc true findings).summary =
        (applyFixesRun doc false findings).summary :=
  ⟨rfl, rfl, rfl, rfl⟩

/-- Sanity check that the modelled fixer computes: renaming the singular
    path key under paths succeeds on a concrete document. -/
theorem renameKey_change_computes :
    applyChangeE
      (Json.obj [("paths", Json.obj [("/user/{id}", Json.obj [])])])
      { operation := ChangeOp.renameKey, path := "$.paths",
        from_ := some "/user/{id}", to_ := some "/users/{id}" } =
      Except.ok
        (Json.obj [("paths", Json.obj [("/users/{id}", Json.obj [])])]) := by
  rfl

/-- Sanity check that a second add of the same key is flagged as an error
    rather than silently duplicated. -/
theorem add_existing_key_errors :
    applyChangeE (Json.obj [("page_size", Json.null)])
      { operation := ChangeOp.add, path := "$.page_size",
        value := some Json.null } =
      Except.error ("add target already exists: " ++ "page_size") := by
  rfl

end AipReview









